import Mathlib

/-!
Shallow embedding of the Bingo game core of this repository
(`AI Bingo/app.py`: `BingoCard`, `BingoGame`) and of the REST boundary
actions that wrap it (`ai_bingo/bingo_api.py`: the `mark` and `call`
branches of `bingo_action`), together with theorems checking the
natural-language specification against that code.

Modelling conventions:
* Python `set` values become `Finset`; Python `dict` values (whose
  insertion-ordered iteration `check_winner` depends on) become
  association lists `List (String × BingoCard)`.
* Randomness (`random.sample`, `random.choice`) is modelled by an
  explicit oracle argument choosing indices; every probabilistic
  outcome of the source corresponds to some oracle value, so
  `∀ oracle` theorems cover "whatever the random choices".
* The wall-clock timestamps used only for UI pacing
  (`last_called_ts`, `call_interval_sec`) are omitted;
  `winner_announced_ts`, the win-record timestamp, is kept with the
  current time passed in as a parameter.
* A raised `HTTPException` at the API boundary becomes an error
  message in the first component of the result, paired with the
  (then unmodified) game state.
-/

namespace Bingo

/-- Model of `BINGO_NUMBERS = list(range(1, 76))`. -/
def BINGO_NUMBERS : List ℕ := List.range' 1 75

/-- Model of `random.sample(population, k)` with an index oracle: each
draw removes the chosen element from the population, so the result is a
sample without replacement.  The oracle entry is reduced mod the current
population size, so every possible sample is reached by some oracle. -/
def sampleAux : ℕ → List ℕ → List ℕ → List ℕ
  | 0, _, _ => []
  | _ + 1, [], _ => []
  | k + 1, p :: ps, picks =>
      let pop := p :: ps
      let i := picks.headD 0 % pop.length
      pop.getD i 0 :: sampleAux k (pop.eraseIdx i) picks.tail

/-- Model of `random.sample(pop, k)` with oracle `picks`. -/
def sample (pop : List ℕ) (k : ℕ) (picks : List ℕ) : List ℕ :=
  sampleAux k pop picks

/-- The state of `BingoCard`: `self.card` (5 columns of 5 numbers) and
`self.marked` (a set of `(column, row)` coordinates). -/
structure BingoCard where
  card : List (List ℕ)
  marked : Finset (ℕ × ℕ)
deriving DecidableEq

/-- Model of `BingoCard.generate_card`: for `i in range(5)`, column `i` is
`random.sample(range(i*15+1, (i+1)*15+1), 5)`. -/
def generate_card (picks : List (List ℕ)) : List (List ℕ) :=
  (List.range 5).map fun i => sample (List.range' (i * 15 + 1) 15) 5 (picks.getD i [])

/-- Model of `BingoCard.__init__`: generate the grid and auto-mark the Free
center, so `marked = {(2, 2)}`. -/
def BingoCard.init (picks : List (List ℕ)) : BingoCard :=
  { card := generate_card picks, marked := {(2, 2)} }

/-- Model of `BingoCard.find_position(number)`: scan columns `0..4`; on the first
column containing the number return `(col_index, column.index(number))`. -/
def BingoCard.find_position (c : BingoCard) (number : ℕ) : Option (ℕ × ℕ) :=
  (List.range 5).findSome? fun col_index =>
    let col := c.card.getD col_index []
    if number ∈ col then some (col_index, col.indexOf number) else none

/-- Model of `BingoCard.toggle_mark(col_index, row_index)`: flip membership of the
coordinate in `marked`, except that the Free space `(2, 2)` is never
removed. -/
def BingoCard.toggle_mark (c : BingoCard) (col_index row_index : ℕ) : BingoCard :=
  let key := (col_index, row_index)
  if key ∈ c.marked then
    if key = (2, 2) then c
    else { c with marked := c.marked.erase key }
  else { c with marked := insert key c.marked }

/-- Model of `BingoCard.clear_marks()`: reset `marked` to `{(2, 2)}`. -/
def BingoCard.clear_marks (c : BingoCard) : BingoCard :=
  { c with marked := {(2, 2)} }

/-- Model of `BingoCard.check_bingo()`: any fully marked column, any fully marked
row, the main diagonal, or the anti-diagonal. -/
def BingoCard.check_bingo (c : BingoCard) : Bool :=
  ((List.range 5).any fun col => (List.range 5).all fun r => decide ((col, r) ∈ c.marked))
  || ((List.range 5).any fun r => (List.range 5).all fun col => decide ((col, r) ∈ c.marked))
  || ((List.range 5).all fun i => decide ((i, i) ∈ c.marked))
  || ((List.range 5).all fun i => decide ((i, 4 - i) ∈ c.marked))

/-- The state of `BingoGame` (pacing timestamps omitted, see header). -/
structure BingoGame where
  players : List (String × BingoCard)
  called_numbers_ordered : List ℕ
  started : Bool
  winner : Option String
  host_name : Option String
  winner_announced_ts : Option ℕ
deriving DecidableEq

/-- Model of `BingoGame.__init__(host_name)`. -/
def BingoGame.init (host_name : Option String) : BingoGame :=
  { players := [], called_numbers_ordered := [], started := false,
    winner := none, host_name := host_name, winner_announced_ts := none }

/-- The `called_numbers` property: the set of the ordered call list. -/
def BingoGame.called_numbers (g : BingoGame) : Finset ℕ :=
  g.called_numbers_ordered.toFinset

/-- Model of `BingoGame.add_player(name)`: if the name is not yet a key, insert a
fresh card (at the end, matching dict insertion order) and return `true`;
otherwise return `false` and change nothing. -/
def BingoGame.add_player (g : BingoGame) (name : String) (picks : List (List ℕ)) :
    BingoGame × Bool :=
  if g.players.any fun p => p.1 == name then (g, false)
  else ({ g with players := g.players ++ [(name, BingoCard.init picks)] }, true)

/-- Model of `BingoGame.start_game()`. -/
def BingoGame.start_game (g : BingoGame) : BingoGame :=
  { g with started := true, winner := none, winner_announced_ts := none }

/-- Model of `BingoGame.call_number()`: draw from the remaining (uncalled)
numbers with the oracle `pick`; return `none` on exhaustion, else append
the drawn number and return it. -/
def BingoGame.call_number (g : BingoGame) (pick : ℕ) : Option ℕ × BingoGame :=
  let remaining_numbers := BINGO_NUMBERS.filter fun n => decide (n ∉ g.called_numbers_ordered)
  if remaining_numbers.isEmpty then (none, g)
  else
    let number := remaining_numbers.getD (pick % remaining_numbers.length) 0
    (some number, { g with called_numbers_ordered := g.called_numbers_ordered ++ [number] })

/-- Model of `BingoGame.check_winner()`: scan players in iteration order; on the
first card with bingo, set `winner` (and the timestamp) only when it is
still unset, and return that player's name; return `None` when no card
has bingo. -/
def BingoGame.check_winner (g : BingoGame) (now : ℕ) : Option String × BingoGame :=
  match g.players.find? fun p => p.2.check_bingo with
  | some (player_name, _) =>
      if g.winner = none then
        (some player_name,
         { g with winner := some player_name, winner_announced_ts := some now })
      else (some player_name, g)
  | none => (none, g)

/-- Model of `BingoGame.reset_round(keep_cards)`: clear the call list, winner and
started flag; keep the cards but clear their marks, or (with
`keep_cards = False`) give player `i` the fresh card `picksFor i`. -/
def BingoGame.reset_round (g : BingoGame) (keep_cards : Bool)
    (picksFor : ℕ → List (List ℕ)) : BingoGame :=
  let g' := { g with called_numbers_ordered := ([] : List ℕ), winner := none,
                     started := false, winner_announced_ts := none }
  if keep_cards then
    { g' with players := g.players.map fun p => (p.1, p.2.clear_marks) }
  else
    { g' with players := g.players.enum.map fun ip => (ip.2.1, BingoCard.init (picksFor ip.1)) }

/-- The mutation `player.marked.add(pos)` performed by the API `mark`
branch on the card stored under `username`. -/
def mark_player (g : BingoGame) (username : String) (pos : ℕ × ℕ) : BingoGame :=
  { g with players := g.players.map fun p =>
      if p.1 == username then (p.1, { p.2 with marked := insert pos p.2.marked }) else p }

/-- The `mark` branch of `bingo_action` in `bingo_api.py`: resolve the
player, and for a non-zero number require it called and on the card;
add its position unless it is the Free center; then run `check_winner`.
An `HTTPException` becomes `(some detail, unchanged game)`. -/
def api_mark (g : BingoGame) (username : String) (number : ℕ) (now : ℕ) :
    Option String × BingoGame :=
  match g.players.find? fun p => p.1 == username with
  | none => (some "Player not found in room", g)
  | some player_entry =>
      if number ≠ 0 then
        if number ∉ g.called_numbers then (some "Number not called yet", g)
        else
          match player_entry.2.find_position number with
          | none => (some "Number not on your card", g)
          | some pos =>
              let g1 := if pos ≠ (2, 2) then mark_player g username pos else g
              (none, (g1.check_winner now).2)
      else (none, (g.check_winner now).2)

/-- The `call` branch of `bingo_action` in `bingo_api.py`: only the host
may call, and only on a started game; then delegate to `call_number`.
Result: `(error detail, called number, game)`. -/
def api_call (g : BingoGame) (username : String) (pick : ℕ) :
    Option String × Option ℕ × BingoGame :=
  if g.host_name ≠ some username then (some "Only host can call numbers", none, g)
  else if g.started = false then (some "Game not started", none, g)
  else
    match g.call_number pick with
    | (none, g') => (none, none, g')
    | (some num, g') => (none, some num, g')

/-- Repeated `call_number` driven by a list of oracle values. -/
def call_numbers_iter (g : BingoGame) (picks : List ℕ) : BingoGame :=
  picks.foldl (fun g' p => (g'.call_number p).2) g

/-- The marked sets of all players, in player order. -/
def player_marks (g : BingoGame) : List (String × Finset (ℕ × ℕ)) :=
  g.players.map fun p => (p.1, p.2.marked)

/-- The 12 bingo lines exactly as the specification enumerates them:
the 5 columns, the 5 rows, the main diagonal and the anti-diagonal. -/
def bingo_lines : List (List (ℕ × ℕ)) :=
  [ [(0, 0), (0, 1), (0, 2), (0, 3), (0, 4)],
    [(1, 0), (1, 1), (1, 2), (1, 3), (1, 4)],
    [(2, 0), (2, 1), (2, 2), (2, 3), (2, 4)],
    [(3, 0), (3, 1), (3, 2), (3, 3), (3, 4)],
    [(4, 0), (4, 1), (4, 2), (4, 3), (4, 4)],
    [(0, 0), (1, 0), (2, 0), (3, 0), (4, 0)],
    [(0, 1), (1, 1), (2, 1), (3, 1), (4, 1)],
    [(0, 2), (1, 2), (2, 2), (3, 2), (4, 2)],
    [(0, 3), (1, 3), (2, 3), (3, 3), (4, 3)],
    [(0, 4), (1, 4), (2, 4), (3, 4), (4, 4)],
    [(0, 0), (1, 1), (2, 2), (3, 3), (4, 4)],
    [(0, 4), (1, 3), (2, 2), (3, 1), (4, 0)] ]

/-- Well-formedness of a card grid: 5 columns of 5 pairwise distinct
values (every card produced by `generate_card` satisfies this). -/
def CardWF (c : BingoCard) : Prop :=
  c.card.length = 5 ∧ (∀ col ∈ c.card, col.length = 5) ∧ c.card.flatten.Nodup

/-- Invariant of the call list: no duplicates, all values in `1..75`. -/
def CalledInv (g : BingoGame) : Prop :=
  g.called_numbers_ordered.Nodup ∧ g.called_numbers_ordered ⊆ BINGO_NUMBERS

/-! ### Concrete states used to instantiate the theorems -/

/-- A concrete well-formed 5×5 grid (columns in the B/I/N/G/O ranges). -/
def gridA : List (List ℕ) :=
  [[1, 2, 3, 4, 5],
   [16, 17, 18, 19, 20],
   [31, 32, 33, 34, 35],
   [46, 47, 48, 49, 50],
   [61, 62, 63, 64, 65]]

/-- A card with only the Free center marked. -/
def cardA : BingoCard := { card := gridA, marked := {(2, 2)} }

/-- A card whose whole column 0 is marked (a bingo). -/
def cardCol0 : BingoCard :=
  { card := gridA, marked := {(0, 0), (0, 1), (0, 2), (0, 3), (0, 4)} }

/-- Room where the recorded winner "bob" is preceded in player iteration
order by "alice", whose card meanwhile also has bingo. -/
def gTwo : BingoGame :=
  { players := [("alice", cardCol0), ("bob", cardCol0)],
    called_numbers_ordered := [], started := true, winner := some "bob",
    host_name := some "bob", winner_announced_ts := some 0 }

/-- Room with a single bingo card and no recorded winner yet. -/
def gBob : BingoGame :=
  { players := [("bob", cardCol0)], called_numbers_ordered := [],
    started := true, winner := none, host_name := some "bob",
    winner_announced_ts := none }

/-- Room with one player "alice" holding `cardA`, numbers 5 and 33 called. -/
def gAlice : BingoGame :=
  { players := [("alice", cardA)], called_numbers_ordered := [5, 33],
    started := true, winner := none, host_name := some "alice",
    winner_announced_ts := none }

/-! ### Lemmas about `sample` -/

theorem sampleAux_subset (k : ℕ) (pop picks : List ℕ) :
    ∀ x ∈ sampleAux k pop picks, x ∈ pop := by
  induction k generalizing pop picks with
  | zero => simp [sampleAux]
  | succ k ih =>
      intro x hx
      match pop with
      | [] => simp [sampleAux] at hx
      | p :: ps =>
          simp only [sampleAux, List.mem_cons] at hx
          rcases hx with h | h
          · have hlen : (picks.headD 0 % (p :: ps).length) < (p :: ps).length :=
              Nat.mod_lt _ (by simp)
            rw [h, List.getD_eq_getElem _ _ hlen]
            exact List.getElem_mem hlen
          · exact (List.eraseIdx_sublist (p :: ps) _).subset (ih _ _ x h)

theorem sampleAux_nodup (k : ℕ) (pop picks : List ℕ) (h : pop.Nodup) :
    (sampleAux k pop picks).Nodup := by
  induction k generalizing pop picks with
  | zero => simp [sampleAux]
  | succ k ih =>
      match pop with
      | [] => simp [sampleAux]
      | p :: ps =>
          simp only [sampleAux, List.nodup_cons]
          refine ⟨fun hmem => ?_, ih _ _ (h.sublist (List.eraseIdx_sublist _ _))⟩
          have hlen : (picks.headD 0 % (p :: ps).length) < (p :: ps).length :=
            Nat.mod_lt _ (by simp)
          have hmem' := sampleAux_subset k _ picks.tail _ hmem
          rw [List.getD_eq_getElem _ _ hlen] at hmem hmem'
          rw [List.mem_eraseIdx_iff_getElem] at hmem'
          obtain ⟨j, hj, hjne, hjeq⟩ := hmem'
          exact hjne ((List.Nodup.getElem_inj_iff h).mp hjeq)

theorem sampleAux_length (k : ℕ) (pop picks : List ℕ) :
    (sampleAux k pop picks).length = min k pop.length := by
  induction k generalizing pop picks with
  | zero => simp [sampleAux]
  | succ k ih =>
      match pop with
      | [] => simp [sampleAux]
      | p :: ps =>
          have hlen : (picks.headD 0 % (p :: ps).length) < (p :: ps).length :=
            Nat.mod_lt _ (by simp)
          simp only [sampleAux, List.length_cons, ih, List.length_eraseIdx]
          simp only [List.length_cons] at hlen
          rw [if_pos hlen]
          omega

theorem sample_mem_range' (a n k : ℕ) (picks : List ℕ) :
    ∀ v ∈ sample (List.range' a n) k picks, a ≤ v ∧ v < a + n := by
  intro v hv
  have := sampleAux_subset k _ picks v hv
  rwa [List.mem_range'_1] at this

theorem sample_nodup (pop : List ℕ) (k : ℕ) (picks : List ℕ) (h : pop.Nodup) :
    (sample pop k picks).Nodup :=
  sampleAux_nodup k pop picks h

/-! ### Lemmas about `generate_card` -/

theorem generate_card_eq (picks : List (List ℕ)) :
    generate_card picks =
      [sample (List.range' 1 15) 5 (picks.getD 0 []),
       sample (List.range' 16 15) 5 (picks.getD 1 []),
       sample (List.range' 31 15) 5 (picks.getD 2 []),
       sample (List.range' 46 15) 5 (picks.getD 3 []),
       sample (List.range' 61 15) 5 (picks.getD 4 [])] := rfl

theorem generate_card_col_range (picks : List (List ℕ)) :
    ∀ c < 5, ∀ v ∈ (generate_card picks).getD c [],
      15 * c + 1 ≤ v ∧ v ≤ 15 * c + 15 := by
  intro c hc v hv
  rw [generate_card_eq] at hv
  interval_cases c <;>
    simp only [List.getD_cons_zero, List.getD_cons_succ] at hv <;>
    [have := sample_mem_range' 1 15 5 _ v hv;
     have := sample_mem_range' 16 15 5 _ v hv;
     have := sample_mem_range' 31 15 5 _ v hv;
     have := sample_mem_range' 46 15 5 _ v hv;
     have := sample_mem_range' 61 15 5 _ v hv] <;> omega

theorem generate_card_flatten_nodup (picks : List (List ℕ)) :
    (generate_card picks).flatten.Nodup := by
  rw [generate_card_eq]
  have h0 := sample_mem_range' 1 15 5 (picks.getD 0 [])
  have h1 := sample_mem_range' 16 15 5 (picks.getD 1 [])
  have h2 := sample_mem_range' 31 15 5 (picks.getD 2 [])
  have h3 := sample_mem_range' 46 15 5 (picks.getD 3 [])
  have h4 := sample_mem_range' 61 15 5 (picks.getD 4 [])
  have n0 := sample_nodup (List.range' 1 15) 5 (picks.getD 0 []) (List.nodup_range' _ _)
  have n1 := sample_nodup (List.range' 16 15) 5 (picks.getD 1 []) (List.nodup_range' _ _)
  have n2 := sample_nodup (List.range' 31 15) 5 (picks.getD 2 []) (List.nodup_range' _ _)
  have n3 := sample_nodup (List.range' 46 15) 5 (picks.getD 3 []) (List.nodup_range' _ _)
  have n4 := sample_nodup (List.range' 61 15) 5 (picks.getD 4 []) (List.nodup_range' _ _)
  simp only [List.flatten_cons, List.flatten_nil, List.append_nil]
  refine n0.append (n1.append (n2.append (n3.append n4 ?_) ?_) ?_) ?_ <;>
    intro v hv hv'
  · have := h3 v hv
    have := h4 v hv'
    omega
  · have := h2 v hv
    rcases List.mem_append.mp hv' with h | h
    · have := h3 v h; omega
    · have := h4 v h; omega
  · have := h1 v hv
    rcases List.mem_append.mp hv' with h | h'
    · have := h2 v h; omega
    rcases List.mem_append.mp h' with h | h
    · have := h3 v h; omega
    · have := h4 v h; omega
  · have := h0 v hv
    rcases List.mem_append.mp hv' with h | h'
    · have := h1 v h; omega
    rcases List.mem_append.mp h' with h | h''
    · have := h2 v h; omega
    rcases List.mem_append.mp h'' with h | h
    · have := h3 v h; omega
    · have := h4 v h; omega

theorem generate_card_flatten_length (picks : List (List ℕ)) :
    (generate_card picks).flatten.length = 25 := by
  rw [generate_card_eq]
  simp [sample, sampleAux_length]

theorem generate_card_col_length (picks : List (List ℕ)) :
    ∀ col ∈ generate_card picks, col.length = 5 := by
  intro col hcol
  rw [generate_card_eq] at hcol
  simp only [List.mem_cons, List.not_mem_nil, or_false] at hcol
  rcases hcol with h | h | h | h | h <;>
    subst h <;> simp [sample, sampleAux_length]

theorem init_CardWF (picks : List (List ℕ)) : CardWF (BingoCard.init picks) :=
  ⟨by rw [BingoCard.init, generate_card_eq]; rfl,
   generate_card_col_length picks, generate_card_flatten_nodup picks⟩

/-! ### Lemmas about `call_number` -/

theorem CalledInv.length_le (g : BingoGame) (h : CalledInv g) :
    g.called_numbers_ordered.length ≤ 75 := by
  have := (List.subperm_of_subset h.1 h.2).length_le
  simpa [BINGO_NUMBERS] using this

theorem call_number_some_spec (g : BingoGame) (pick : ℕ) (n : ℕ) (g' : BingoGame)
    (h : g.call_number pick = (some n, g')) :
    n ∈ BINGO_NUMBERS ∧ n ∉ g.called_numbers_ordered ∧
      g' = { g with called_numbers_ordered := g.called_numbers_ordered ++ [n] } := by
  unfold BingoGame.call_number at h
  set remaining := BINGO_NUMBERS.filter fun m => decide (m ∉ g.called_numbers_ordered)
    with hrem
  by_cases hre : remaining.isEmpty
  · simp [hre] at h
  · simp only [hre, Bool.false_eq_true, if_false] at h
    have hne : remaining ≠ [] := fun hnil => hre (by simp [hnil])
    have hpos : 0 < remaining.length := List.length_pos.mpr hne
    have hlt : pick % remaining.length < remaining.length := Nat.mod_lt _ hpos
    have hmem : remaining.getD (pick % remaining.length) 0 ∈ remaining := by
      rw [List.getD_eq_getElem _ _ hlt]
      exact List.getElem_mem hlt
    rw [Prod.mk.injEq] at h
    obtain ⟨h1, h2⟩ := h
    have hn := Option.some_inj.mp h1
    rw [hn] at hmem
    rw [hrem, List.mem_filter] at hmem
    refine ⟨hmem.1, of_decide_eq_true hmem.2, ?_⟩
    rw [← h2, hn]

theorem call_number_none_of_filter_nil (g : BingoGame) (pick : ℕ)
    (h : (BINGO_NUMBERS.filter fun m => decide (m ∉ g.called_numbers_ordered)) = []) :
    g.call_number pick = (none, g) := by
  unfold BingoGame.call_number
  rw [h]
  rfl

theorem call_number_step (g : BingoGame) (pick : ℕ)
    (hlt : g.called_numbers_ordered.length < 75) :
    ∃ n, g.call_number pick =
        (some n, { g with called_numbers_ordered := g.called_numbers_ordered ++ [n] }) ∧
      n ∈ BINGO_NUMBERS ∧ n ∉ g.called_numbers_ordered := by
  set remaining := BINGO_NUMBERS.filter fun m => decide (m ∉ g.called_numbers_ordered)
    with hrem
  have hne : ¬ remaining.isEmpty := by
    intro hempty
    rw [List.isEmpty_iff, hrem, List.filter_eq_nil_iff] at hempty
    have hsub : BINGO_NUMBERS ⊆ g.called_numbers_ordered := by
      intro m hm
      have := hempty m hm
      simpa using this
    have hnd : BINGO_NUMBERS.Nodup := by
      unfold BINGO_NUMBERS
      exact List.nodup_range' 1 75
    have := (List.subperm_of_subset hnd hsub).length_le
    simp only [BINGO_NUMBERS, List.length_range'] at this
    omega
  have hcall : g.call_number pick =
      (some (remaining.getD (pick % remaining.length) 0),
       { g with called_numbers_ordered :=
           g.called_numbers_ordered ++ [remaining.getD (pick % remaining.length) 0] }) := by
    unfold BingoGame.call_number
    simp only [← hrem, hne, Bool.false_eq_true, if_false]
  obtain ⟨h1, h2, h3⟩ := call_number_some_spec g pick _ _ hcall
  exact ⟨_, hcall, h1, h2⟩

theorem call_number_exhausted (g : BingoGame) (pick : ℕ) (hinv : CalledInv g)
    (hlen : g.called_numbers_ordered.length = 75) :
    g.call_number pick = (none, g) := by
  have hperm : g.called_numbers_ordered.Perm BINGO_NUMBERS := by
    refine (List.subperm_of_subset hinv.1 hinv.2).perm_of_length_le ?_
    simp [BINGO_NUMBERS, hlen]
  refine call_number_none_of_filter_nil g pick ?_
  rw [List.filter_eq_nil_iff]
  intro m hm
  simp only [decide_not, Bool.not_eq_true', decide_eq_false_iff_not, not_not]
  exact hperm.mem_iff.mpr hm

theorem call_numbers_iter_cons (g : BingoGame) (p : ℕ) (ps : List ℕ) :
    call_numbers_iter g (p :: ps) = call_numbers_iter (g.call_number p).2 ps := rfl

theorem call_numbers_iter_spec (picks : List ℕ) (g : BingoGame) (hinv : CalledInv g) :
    CalledInv (call_numbers_iter g picks) ∧
    (call_numbers_iter g picks).called_numbers_ordered.length =
      min (g.called_numbers_ordered.length + picks.length) 75 := by
  induction picks generalizing g with
  | nil =>
      have := hinv.length_le
      constructor
      · exact hinv
      · simp only [call_numbers_iter, List.foldl_nil, List.length_nil]
        omega
  | cons p ps ih =>
      rw [call_numbers_iter_cons]
      by_cases hlt : g.called_numbers_ordered.length < 75
      · obtain ⟨n, hcall, hn, hnotin⟩ := call_number_step g p hlt
        rw [hcall]
        have hinv' : CalledInv { g with called_numbers_ordered :=
            g.called_numbers_ordered ++ [n] } := by
          constructor
          · exact ((List.perm_append_singleton n _).nodup_iff).mpr
              (List.nodup_cons.mpr ⟨hnotin, hinv.1⟩)
          · intro m hm
            rcases List.mem_append.mp hm with h | h
            · exact hinv.2 h
            · simpa using List.mem_singleton.mp h ▸ hn
        obtain ⟨ha, hb⟩ := ih _ hinv'
        refine ⟨ha, ?_⟩
        rw [hb]
        have hlen1 : ({ g with called_numbers_ordered := g.called_numbers_ordered ++ [n] } :
            BingoGame).called_numbers_ordered.length = g.called_numbers_ordered.length + 1 := by
          simp
        rw [hlen1]
        simp only [List.length_cons]
        omega
      · have hlen : g.called_numbers_ordered.length = 75 := by
          have := hinv.length_le
          omega
        rw [call_number_exhausted g p hinv hlen]
        obtain ⟨ha, hb⟩ := ih g hinv
        refine ⟨ha, ?_⟩
        rw [hb]
        simp only [List.length_cons]
        omega

/-! ### Claim C3 -/

/-- C3: for every card, `check_bingo` returns true iff at least one of
the 12 lines of `bingo_lines` — the 5 columns, the 5 rows, the main
diagonal and the anti-diagonal — is a subset of `marked`; on a freshly
constructed card (marked = {(2,2)}) it returns false. -/
theorem check_bingo_iff_lines :
    (∀ c : BingoCard,
       c.check_bingo = true ↔ ∃ l ∈ bingo_lines, ∀ p ∈ l, p ∈ c.marked) ∧
    ∀ picks, (BingoCard.init picks).check_bingo = false := by
  refine ⟨fun c => ?_, fun picks => rfl⟩
  have hR : List.range 5 = [0, 1, 2, 3, 4] := rfl
  unfold BingoCard.check_bingo bingo_lines
  rw [hR]
  simp only [List.any_cons, List.any_nil, List.all_cons, List.all_nil,
    Bool.or_eq_true, Bool.and_eq_true, Bool.or_false, Bool.and_true,
    decide_eq_true_eq, List.exists_mem_cons_iff, List.forall_mem_cons,
    List.forall_mem_nil, and_true, true_and, or_false, false_or, or_assoc]
  norm_num [List.mem_nil_iff]

/-- Witness for C3: a card with column 0 fully marked has bingo, via the
line characterization. -/
theorem check_bingo_iff_lines_witness : cardCol0.check_bingo = true :=
  (check_bingo_iff_lines.1 cardCol0).mpr
    ⟨[(0, 0), (0, 1), (0, 2), (0, 3), (0, 4)], by decide, by decide⟩

/-! ### Claim C4 -/

/-- C4: the Free cell `(2,2)` is in `marked` immediately after
construction; `clear_marks` resets `marked` to exactly `{(2,2)}`;
`toggle_mark` never removes `(2,2)`; and `toggle_mark 2 2` when `(2,2)`
is marked is a no-op. -/
theorem free_cell_invariant :
    (∀ picks, (2, 2) ∈ (BingoCard.init picks).marked) ∧
    (∀ c : BingoCard, c.clear_marks.marked = {(2, 2)}) ∧
    (∀ (c : BingoCard) (ci ri : ℕ),
       (2, 2) ∈ c.marked → (2, 2) ∈ (c.toggle_mark ci ri).marked) ∧
    (∀ c : BingoCard, (2, 2) ∈ c.marked → c.toggle_mark 2 2 = c) := by
  refine ⟨fun picks => by simp [BingoCard.init], fun c => rfl, ?_, ?_⟩
  · intro c ci ri h
    simp only [BingoCard.toggle_mark]
    by_cases hmem : (ci, ri) ∈ c.marked
    · rw [if_pos hmem]
      by_cases hk : (ci, ri) = ((2 : ℕ), (2 : ℕ))
      · rw [if_pos hk]; exact h
      · rw [if_neg hk]; exact Finset.mem_erase.mpr ⟨fun hh => hk hh.symm, h⟩
    · rw [if_neg hmem]
      exact Finset.mem_insert_of_mem h
  · intro c h
    simp only [BingoCard.toggle_mark]
    rw [if_pos h]
    simp

/-- Witness for C4 at the concrete card `cardA`. -/
theorem free_cell_invariant_witness :
    (2, 2) ∈ (cardA.toggle_mark 0 0).marked ∧ cardA.toggle_mark 2 2 = cardA :=
  ⟨free_cell_invariant.2.2.1 cardA 0 0 (by decide),
   free_cell_invariant.2.2.2 cardA (by decide)⟩

/-! ### Claim C5 -/

/-- C5: whatever the random choices, a generated grid has 25 pairwise
distinct values, and the five values of column `c` lie in
`[15c+1, 15c+15]`. -/
theorem generate_card_distinct_and_ranged (picks : List (List ℕ)) :
    (generate_card picks).flatten.Nodup ∧
    (generate_card picks).flatten.length = 25 ∧
    ∀ c < 5, ∀ v ∈ (generate_card picks).getD c [],
      15 * c + 1 ≤ v ∧ v ≤ 15 * c + 15 :=
  ⟨generate_card_flatten_nodup picks, generate_card_flatten_length picks,
   generate_card_col_range picks⟩

/-- Witness for C5 at a concrete oracle. -/
theorem generate_card_distinct_and_ranged_witness :
    (generate_card []).flatten.Nodup ∧
    ∀ v ∈ (generate_card []).getD 2 [], 31 ≤ v ∧ v ≤ 45 := by
  refine ⟨(generate_card_distinct_and_ranged []).1, fun v hv => ?_⟩
  have h := (generate_card_distinct_and_ranged []).2.2 2 (by norm_num) v hv
  omega

/-! ### Claim C2 -/

/-- C2: from a fresh game, 75 calls produce a duplicate-free call list
(at every prefix) of length 75 that is a permutation of 1..75; the 76th
call returns the exhaustion signal `none` and leaves the state unchanged;
and a successful call never returns an already-called number. -/
theorem call_number_run_spec (picks : List ℕ) (h75 : picks.length = 75) :
    (∀ k, (call_numbers_iter (BingoGame.init none)
      (picks.take k)).called_numbers_ordered.Nodup) ∧
    (call_numbers_iter (BingoGame.init none) picks).called_numbers_ordered.length = 75 ∧
    (call_numbers_iter (BingoGame.init none) picks).called_numbers_ordered.Perm
      BINGO_NUMBERS ∧
    (∀ pick, (call_numbers_iter (BingoGame.init none) picks).call_number pick =
       (none, call_numbers_iter (BingoGame.init none) picks)) ∧
    (∀ (g : BingoGame) (pick n : ℕ) (g' : BingoGame),
       g.call_number pick = (some n, g') → n ∉ g.called_numbers_ordered) := by
  have hinv0 : CalledInv (BingoGame.init none) :=
    ⟨List.nodup_nil, List.nil_subset _⟩
  obtain ⟨hinvf, hlenf⟩ := call_numbers_iter_spec picks _ hinv0
  have hlen75 : (call_numbers_iter (BingoGame.init none)
      picks).called_numbers_ordered.length = 75 := by
    rw [hlenf]
    simp [BingoGame.init, h75]
  refine ⟨?_, hlen75, ?_, ?_, ?_⟩
  · intro k
    exact (call_numbers_iter_spec (picks.take k) _ hinv0).1.1
  · refine (List.subperm_of_subset hinvf.1 hinvf.2).perm_of_length_le ?_
    simp [BINGO_NUMBERS, hlen75]
  · intro pick
    exact call_number_exhausted _ pick hinvf hlen75
  · intro g pick n g' h
    exact (call_number_some_spec g pick n g' h).2.1

/-- Witness for C2 at the concrete oracle `replicate 75 0`. -/
theorem call_number_run_spec_witness :
    (call_numbers_iter (BingoGame.init none)
      (List.replicate 75 0)).called_numbers_ordered.Perm BINGO_NUMBERS :=
  (call_number_run_spec (List.replicate 75 0) (by simp)).2.2.1

/-! ### Claim C1 -/

/-- Helper: `find?` returns the element at the first index satisfying
the predicate. -/
theorem find?_eq_some_of_first {α : Type _} (p : α → Bool) (l : List α) (i : ℕ)
    (hi : i < l.length) (hp : p (l.get ⟨i, hi⟩) = true)
    (hb : ∀ j, (hj : j < i) → p (l.get ⟨j, Nat.lt_trans hj hi⟩) = false) :
    l.find? p = some (l.get ⟨i, hi⟩) := by
  induction l generalizing i with
  | nil => simp at hi
  | cons a as ih =>
      cases i with
      | zero =>
          simp only [List.get] at hp
          simp [List.find?_cons_of_pos, hp]
      | succ n =>
          have ha : p a = false := by
            have := hb 0 (Nat.succ_pos n)
            simpa using this
          have hi' : n < as.length := by simpa using hi
          have hp' : p (as.get ⟨n, hi'⟩) = true := by simpa using hp
          have hb' : ∀ j, (hj : j < n) →
              p (as.get ⟨j, Nat.lt_trans hj hi'⟩) = false := by
            intro j hj
            have := hb (j + 1) (by omega)
            simpa using this
          have hrec := ih n hi' hp' hb'
          rw [List.find?_cons_of_neg _ (by simp [ha]), hrec]
          simp

/-- C1 (amended): `check_winner` never overwrites an already-set
`winner`; when nobody has bingo it returns none and changes nothing; and
the name it returns is always that of the first player in iteration
order whose card has bingo, which is recorded as `winner` (with the win
timestamp) only when `winner` was still unset. -/
theorem check_winner_spec (g : BingoGame) (now : ℕ) :
    (∀ w, g.winner = some w → ((g.check_winner now).2).winner = some w) ∧
    ((∀ q ∈ g.players, q.2.check_bingo = false) → g.check_winner now = (none, g)) ∧
    (∀ i, (hi : i < g.players.length) →
       (g.players.get ⟨i, hi⟩).2.check_bingo = true →
       (∀ j, (hj : j < i) →
          (g.players.get ⟨j, Nat.lt_trans hj hi⟩).2.check_bingo = false) →
       (g.check_winner now).1 = some (g.players.get ⟨i, hi⟩).1 ∧
       (g.winner = none →
          (g.check_winner now).2 =
            { g with winner := some (g.players.get ⟨i, hi⟩).1,
                     winner_announced_ts := some now })) := by
  refine ⟨?_, ?_, ?_⟩
  · intro w hw
    unfold BingoGame.check_winner
    rcases hf : g.players.find? fun p => p.2.check_bingo with _ | ⟨name, card⟩ <;>
      simp [hf, hw]
  · intro hnone
    have hf : (g.players.find? fun q => q.2.check_bingo) = none :=
      List.find?_eq_none.mpr fun x hx => by simp [hnone x hx]
    unfold BingoGame.check_winner
    rw [hf]
  · intro i hi hp hb
    have hf := find?_eq_some_of_first (fun q => q.2.check_bingo) g.players i hi hp hb
    unfold BingoGame.check_winner
    rw [hf]
    constructor
    · rcases hq : g.players.get ⟨i, hi⟩ with ⟨name, card⟩
      by_cases hw : g.winner = none <;> simp [hw]
    · intro hw
      rcases hq : g.players.get ⟨i, hi⟩ with ⟨name, card⟩
      simp [hw]

/-- C1 counterexample: in `gTwo` the recorded winner is "bob", yet
`check_winner` returns "alice" (the first player in iteration order with
bingo), not the recorded winner, while leaving `winner = some "bob"`. -/
theorem check_winner_cex :
    gTwo.winner = some "bob" ∧
    (gTwo.check_winner 0).1 = some "alice" ∧
    ¬ (gTwo.check_winner 0).1 = some "bob" ∧
    (gTwo.check_winner 0).2.winner = some "bob" := by decide

/-- Witness for C1 at `gBob`: the first (and only) bingo player is
recorded and returned. -/
theorem check_winner_spec_witness :
    (gBob.check_winner 7).1 = some "bob" ∧
    (gBob.check_winner 7).2 =
      { gBob with winner := some "bob", winner_announced_ts := some 7 } := by
  have h := (check_winner_spec gBob 7).2.2 0 (by decide) (by decide)
    (fun j hj => ((Nat.not_lt_zero j) hj).elim)
  exact ⟨h.1, h.2 rfl⟩

/-! ### Claim C6 -/

/-- C6: `reset_round` clears the call list, winner and started flag in
both modes; player names are unchanged; with `keepCards = true` every
player's marks become exactly `{(2,2)}` while the grids are unchanged;
with `keepCards = false` every player receives a freshly constructed
card. -/
theorem reset_round_spec (g : BingoGame) (picksFor : ℕ → List (List ℕ)) :
    ((g.reset_round true picksFor).called_numbers_ordered = [] ∧
     (g.reset_round true picksFor).winner = none ∧
     (g.reset_round true picksFor).started = false) ∧
    ((g.reset_round false picksFor).called_numbers_ordered = [] ∧
     (g.reset_round false picksFor).winner = none ∧
     (g.reset_round false picksFor).started = false) ∧
    ((g.reset_round true picksFor).players.map Prod.fst = g.players.map Prod.fst ∧
     (g.reset_round false picksFor).players.map Prod.fst = g.players.map Prod.fst) ∧
    (∀ q ∈ (g.reset_round true picksFor).players, q.2.marked = {(2, 2)}) ∧
    ((g.reset_round true picksFor).players.map fun q => q.2.card) =
      (g.players.map fun q => q.2.card) ∧
    (∀ i, i < g.players.length →
       ((g.reset_round false picksFor).players[i]?).map Prod.snd =
         some (BingoCard.init (picksFor i))) := by
  refine ⟨⟨rfl, rfl, rfl⟩, ⟨rfl, rfl, rfl⟩, ⟨?_, ?_⟩, ?_, ?_, ?_⟩
  · simp [BingoGame.reset_round, List.map_map, Function.comp_def]
  · simp only [BingoGame.reset_round, Bool.false_eq_true, if_false, List.map_map]
    have : (Prod.fst ∘ fun ip : ℕ × String × BingoCard =>
        (ip.2.1, BingoCard.init (picksFor ip.1))) =
        (Prod.fst ∘ Prod.snd : ℕ × String × BingoCard → String) := rfl
    rw [this, ← List.map_map, List.enum_map_snd]
  · intro q hq
    simp only [BingoGame.reset_round, if_true, List.mem_map] at hq
    obtain ⟨p, _, rfl⟩ := hq
    rfl
  · simp [BingoGame.reset_round, List.map_map, Function.comp_def,
      BingoCard.clear_marks]
  · intro i hi
    simp only [BingoGame.reset_round, Bool.false_eq_true, if_false,
      List.getElem?_map, List.getElem?_enum, Option.map_map]
    rw [List.getElem?_eq_getElem hi]
    rfl

/-- Witness for C6 at `gAlice`. -/
theorem reset_round_spec_witness :
    (("alice", cardA.clear_marks) : String × BingoCard).2.marked = {(2, 2)} ∧
    ((gAlice.reset_round false fun _ => []).players[0]?).map Prod.snd =
      some (BingoCard.init []) :=
  ⟨(reset_round_spec gAlice fun _ => []).2.2.2.1 ("alice", cardA.clear_marks)
     (by decide),
   (reset_round_spec gAlice fun _ => []).2.2.2.2.2 0 (by decide)⟩

/-! ### Claim C7 -/

/-- C7: `add_player` on a new name inserts a fresh card at the end of
the player map and returns true; on an existing name (exact,
case-sensitive string equality) it returns false and leaves the whole
game — including the existing card — unchanged. -/
theorem add_player_spec (g : BingoGame) (name : String) (picks : List (List ℕ)) :
    (name ∉ g.players.map Prod.fst →
       g.add_player name picks =
         ({ g with players := g.players ++ [(name, BingoCard.init picks)] }, true)) ∧
    (name ∈ g.players.map Prod.fst → g.add_player name picks = (g, false)) := by
  have hkey : (g.players.any fun p => p.1 == name) = true ↔
      name ∈ g.players.map Prod.fst := by
    rw [List.any_eq_true]
    simp only [List.mem_map, beq_iff_eq]
  constructor
  · intro h
    unfold BingoGame.add_player
    rw [if_neg fun hc => h (hkey.mp hc)]
  · intro h
    unfold BingoGame.add_player
    rw [if_pos (hkey.mpr h)]

/-- Witness for C7 at `gAlice`: adding the existing name "alice" is
rejected without touching the game, while the differently-cased name
"Alice" is a fresh insertion. -/
theorem add_player_spec_witness :
    gAlice.add_player "alice" [] = (gAlice, false) ∧
    (gAlice.add_player "Alice" []).2 = true := by
  refine ⟨(add_player_spec gAlice "alice" []).2 (by decide), ?_⟩
  rw [(add_player_spec gAlice "Alice" []).1 (by decide)]

/-! ### Claim C8 -/

/-- C8: at the API boundary, a mark request for a non-zero number that
has not been called is rejected with an error while the game state is
returned unchanged; a mark request for a called number that is on the
player's card succeeds (no error). -/
theorem api_mark_uncalled_rejected (g : BingoGame) (username : String)
    (number now : ℕ) (hn : number ≠ 0) :
    (number ∉ g.called_numbers →
       ∃ msg, api_mark g username number now = (some msg, g)) ∧
    (number ∈ g.called_numbers →
       ∀ q, g.players.find? (fun p => p.1 == username) = some q →
       ∀ pos, q.2.find_position number = some pos →
       (api_mark g username number now).1 = none) := by
  constructor
  · intro hnc
    unfold api_mark
    rcases hf : g.players.find? fun p => p.1 == username with _ | q <;> rw [hf] <;>
      dsimp only
    · exact ⟨_, rfl⟩
    · rw [if_pos hn, if_pos hnc]
      exact ⟨_, rfl⟩
  · intro hc q hq pos hpos
    unfold api_mark
    rw [hq]
    dsimp only
    rw [if_pos hn, if_neg (not_not_intro hc), hpos]

/-- Witness for C8 at `gAlice`: 7 is uncalled and rejected; 5 is called
and on the card at column 0, row 4, so the mark succeeds. -/
theorem api_mark_uncalled_rejected_witness :
    (∃ msg, api_mark gAlice "alice" 7 0 = (some msg, gAlice)) ∧
    (api_mark gAlice "alice" 5 0).1 = none :=
  ⟨(api_mark_uncalled_rejected gAlice "alice" 7 0 (by decide)).1 (by decide),
   (api_mark_uncalled_rejected gAlice "alice" 5 0 (by decide)).2 (by decide)
     ("alice", cardA) (by decide) (0, 4) (by decide)⟩

/-! ### Claim C9 -/

/-- C9: `call_number` itself ignores the `started` flag and the winner —
on any state with an uncalled number it draws and appends; the "game
must be running" rule exists only at the API boundary, where `call` on a
not-started game is rejected with an error and no state change. -/
theorem call_number_ignores_started (g : BingoGame) (pick : ℕ)
    (h : ∃ n ∈ BINGO_NUMBERS, n ∉ g.called_numbers_ordered) :
    (∃ n, g.call_number pick =
       (some n, { g with called_numbers_ordered := g.called_numbers_ordered ++ [n] })) ∧
    (g.started = false → ∀ username, g.host_name = some username →
       api_call g username pick = (some "Game not started", none, g)) := by
  constructor
  · obtain ⟨n, hnB, hnC⟩ := h
    have hmem : n ∈ BINGO_NUMBERS.filter fun m => decide (m ∉ g.called_numbers_ordered) :=
      List.mem_filter.mpr ⟨hnB, by simpa using hnC⟩
    have hne : ¬ (BINGO_NUMBERS.filter fun m =>
        decide (m ∉ g.called_numbers_ordered)).isEmpty = true := by
      intro hempty
      rw [List.isEmpty_iff] at hempty
      rw [hempty] at hmem
      simp at hmem
    refine ⟨(BINGO_NUMBERS.filter fun m => decide (m ∉ g.called_numbers_ordered)).getD
      (pick % (BINGO_NUMBERS.filter fun m =>
        decide (m ∉ g.called_numbers_ordered)).length) 0, ?_⟩
    unfold BingoGame.call_number
    simp only [hne, Bool.false_eq_true, if_false]
  · intro hs username hh
    unfold api_call
    rw [if_neg fun hcon => hcon hh, if_pos hs]

/-- Witness for C9 on a fresh, not-started room. -/
theorem call_number_ignores_started_witness :
    (∃ n, (BingoGame.init (some "h")).call_number 0 =
       (some n, { BingoGame.init (some "h") with called_numbers_ordered :=
         (BingoGame.init (some "h")).called_numbers_ordered ++ [n] })) ∧
    api_call (BingoGame.init (some "h")) "h" 0 =
      (some "Game not started", none, BingoGame.init (some "h")) := by
  have h := call_number_ignores_started (BingoGame.init (some "h")) 0
    ⟨1, by decide, by decide⟩
  exact ⟨h.1, h.2 rfl "h" rfl⟩

/-! ### Machinery for claim C10 -/

theorem map_pointwise_eq {α β : Type _} (l : List α) (f f' : α → β)
    (h : ∀ a ∈ l, f a = f' a) : l.map f = l.map f' := by
  induction l with
  | nil => rfl
  | cons a as ih =>
      rw [List.map_cons, List.map_cons, h a (List.mem_cons_self a as),
        ih fun b hb => h b (List.mem_cons_of_mem a hb)]

/-- Frame lemma: `check_winner` never touches the players or the call list. -/
theorem check_winner_preserves (g : BingoGame) (now : ℕ) :
    ((g.check_winner now).2).players = g.players ∧
    ((g.check_winner now).2).called_numbers_ordered = g.called_numbers_ordered := by
  unfold BingoGame.check_winner
  rcases hf : g.players.find? fun p => p.2.check_bingo with _ | ⟨name, card⟩ <;>
    rw [hf] <;> dsimp only
  · exact ⟨rfl, rfl⟩
  · by_cases hw : g.winner = none
    · rw [if_pos hw]
      exact ⟨rfl, rfl⟩
    · rw [if_neg hw]
      exact ⟨rfl, rfl⟩

theorem player_marks_check_winner (g : BingoGame) (now : ℕ) :
    player_marks ((g.check_winner now).2) = player_marks g := by
  unfold player_marks
  rw [(check_winner_preserves g now).1]

/-- Commuting `find?` with a first-component-preserving map. -/
theorem find?_map_fst (l : List (String × BingoCard)) (u : String)
    (f : String × BingoCard → String × BingoCard) (hf : ∀ p, (f p).1 = p.1) :
    (l.map f).find? (fun p => p.1 == u) = (l.find? fun p => p.1 == u).map f := by
  induction l with
  | nil => rfl
  | cons a as ih =>
      rw [List.map_cons]
      by_cases ha : (a.1 == u) = true
      · have ha2 : ((f a).1 == u) = true := by rw [hf a]; exact ha
        rw [List.find?_cons, List.find?_cons, ha, ha2]
        rfl
      · have ha1 : (a.1 == u) = false := by simpa using ha
        have ha2 : ((f a).1 == u) = false := by rw [hf a]; exact ha1
        rw [List.find?_cons, List.find?_cons, ha1, ha2]
        dsimp only
        exact ih

theorem mark_player_called_eq (g : BingoGame) (u : String) (pos : ℕ × ℕ) :
    (mark_player g u pos).called_numbers_ordered = g.called_numbers_ordered := rfl

/-- The `mark` branch under a found player, a called non-zero number and
a position on the card. -/
theorem api_mark_eq (g : BingoGame) (u : String) (n now : ℕ)
    (q : String × BingoCard)
    (hq : g.players.find? (fun p => p.1 == u) = some q) (hn : n ≠ 0)
    (hc : n ∈ g.called_numbers) (pos : ℕ × ℕ)
    (hpos : q.2.find_position n = some pos) :
    api_mark g u n now =
      (none, ((if pos ≠ (2, 2) then mark_player g u pos else g).check_winner now).2) := by
  unfold api_mark
  rw [hq]
  dsimp only
  rw [if_pos hn, if_neg (not_not_intro hc), hpos]

/-- The second component returned by `api_mark` is one of: `g` itself,
`check_winner` applied to `g`, or `check_winner` applied to a one-mark
update of `g`. -/
theorem api_mark_snd_cases (g : BingoGame) (u : String) (n now : ℕ) :
    (api_mark g u n now).2 = g ∨
    (api_mark g u n now).2 = (g.check_winner now).2 ∨
    ∃ pos, (api_mark g u n now).2 = ((mark_player g u pos).check_winner now).2 := by
  unfold api_mark
  rcases hq : g.players.find? fun p => p.1 == u with _ | q <;> rw [hq] <;> dsimp only
  · left; rfl
  · by_cases hn : n ≠ 0
    · rw [if_pos hn]
      by_cases hc : n ∉ g.called_numbers
      · rw [if_pos hc]
        left; rfl
      · rw [if_neg hc]
        rcases hpos : q.2.find_position n with _ | pos <;> dsimp only
        · left; rfl
        · by_cases hp2 : pos ≠ (2, 2)
          · right; right
            exact ⟨pos, by rw [if_pos hp2]⟩
          · right; left
            rw [if_neg hp2]
    · rw [if_neg hn]
      right; left; rfl

theorem marked_subset_getD_map (l : List (String × BingoCard))
    (f : String × BingoCard → String × BingoCard)
    (hf : ∀ p, p.2.marked ⊆ (f p).2.marked) (i : ℕ) (d : String × BingoCard) :
    (l.getD i d).2.marked ⊆ ((l.map f).getD i d).2.marked := by
  rcases lt_or_ge i l.length with hi | hi
  · rw [List.getD_eq_getElem _ _ hi, List.getD_eq_getElem _ _ (by simpa using hi),
      List.getElem_map]
    exact hf _
  · rw [List.getD_eq_default _ _ hi, List.getD_eq_default _ _ (by simpa using hi)]

/-- Marks are unchanged by `mark_player` when every entry under the name
already holds the position. -/
theorem mark_player_marks_eq (g : BingoGame) (u : String) (pos : ℕ × ℕ)
    (h : ∀ p ∈ g.players, (p.1 == u) = true → pos ∈ p.2.marked) :
    player_marks (mark_player g u pos) = player_marks g := by
  unfold player_marks mark_player
  dsimp only
  rw [List.map_map]
  refine map_pointwise_eq _ _ _ fun p hp => ?_
  by_cases hu : (p.1 == u) = true
  · simp only [Function.comp_def, hu, if_true]
    rw [Finset.insert_eq_self.mpr (h p hp hu)]
  · simp only [Function.comp_def, hu, Bool.false_eq_true, if_false]

/-- Lookup `find_position` depends only on the grid. -/
theorem find_position_congr (c c' : BingoCard) (h : c.card = c'.card) (n : ℕ) :
    c.find_position n = c'.find_position n := by
  unfold BingoCard.find_position
  rw [h]

/-- On a well-formed card, looking up the value of the Free center cell
finds exactly the center position. -/
theorem find_position_center (c : BingoCard) (h : CardWF c) :
    c.find_position ((c.card.getD 2 []).getD 2 0) = some (2, 2) := by
  obtain ⟨hlen, hcols, hnd⟩ := h
  rcases hcard : c.card with _ | ⟨c0, _ | ⟨c1, _ | ⟨c2, _ | ⟨c3, _ | ⟨c4, rest⟩⟩⟩⟩⟩ <;>
    rw [hcard] at hlen <;> simp only [List.length_cons, List.length_nil] at hlen <;>
    try omega
  have hrest : rest = [] := by
    rw [← List.length_eq_zero]
    omega
  subst hrest
  have hc2 : c2.length = 5 := hcols c2 (by rw [hcard]; simp)
  have h2lt : 2 < c2.length := by omega
  rw [hcard] at hnd
  simp only [List.flatten_cons, List.flatten_nil, List.append_nil] at hnd
  have harg : (([c0, c1, c2, c3, c4].getD 2 []).getD 2 0 : ℕ) = c2.getD 2 0 := rfl
  have hval : c2.getD 2 0 = c2.get ⟨2, h2lt⟩ := by
    rw [List.getD_eq_getElem _ _ h2lt]
    rfl
  have hn2 : c2.getD 2 0 ∈ c2 := by
    rw [hval]
    exact List.get_mem c2 2 h2lt
  have hrest2 : c2.getD 2 0 ∈ c2 ++ (c3 ++ c4) := List.mem_append.mpr (Or.inl hn2)
  have hn1 : c2.getD 2 0 ∉ c1 := fun hmem =>
    (List.disjoint_of_nodup_append (hnd.of_append_right)) hmem hrest2
  have hn0 : c2.getD 2 0 ∉ c0 := fun hmem =>
    (List.disjoint_of_nodup_append hnd) hmem
      (List.mem_append.mpr (Or.inr hrest2))
  have hidx : c2.indexOf (c2.getD 2 0) = 2 := by
    have hndc2 : c2.Nodup :=
      ((hnd.of_append_right).of_append_right).of_append_left
    rw [hval, List.get_eq_getElem]
    exact List.indexOf_getElem hndc2 2 h2lt
  rw [harg]
  unfold BingoCard.find_position
  have hR : List.range 5 = [0, 1, 2, 3, 4] := rfl
  rw [hR, hcard]
  simp only [List.findSome?_cons, List.getD_cons_zero, List.getD_cons_succ]
  rw [if_neg hn0, if_neg hn1, if_pos hn2, hidx]

/-! ### Claim C10 -/

/-- C10: the API mark action is add-only (player names are preserved and
no coordinate is ever removed from any marked set), idempotent (repeating
the same successful mark leaves all marked sets identical), and a request
for the sentinel 0 or for the value of the Free center cell of a
well-formed card leaves every marked set entirely unchanged. -/
theorem api_mark_add_only_idempotent :
    (∀ (g : BingoGame) (u : String) (n now i : ℕ) (d : String × BingoCard),
       ((api_mark g u n now).2).players.map Prod.fst = g.players.map Prod.fst ∧
       (g.players.getD i d).2.marked ⊆
         (((api_mark g u n now).2).players.getD i d).2.marked) ∧
    (∀ (g : BingoGame) (u : String) (n now now2 : ℕ) (q : String × BingoCard)
       (pos : ℕ × ℕ),
       n ≠ 0 → g.players.find? (fun p => p.1 == u) = some q →
       n ∈ g.called_numbers → q.2.find_position n = some pos →
       player_marks ((api_mark ((api_mark g u n now).2) u n now2).2) =
         player_marks ((api_mark g u n now).2)) ∧
    (∀ (g : BingoGame) (u : String) (now : ℕ),
       player_marks ((api_mark g u 0 now).2) = player_marks g) ∧
    (∀ (g : BingoGame) (u : String) (n now : ℕ) (q : String × BingoCard),
       g.players.find? (fun p => p.1 == u) = some q → CardWF q.2 →
       n = (q.2.card.getD 2 []).getD 2 0 →
       player_marks ((api_mark g u n now).2) = player_marks g) := by
  have hzero : ∀ (g : BingoGame) (u : String) (now : ℕ),
      player_marks ((api_mark g u 0 now).2) = player_marks g := by
    intro g u now
    unfold api_mark
    rcases hq : g.players.find? fun p => p.1 == u with _ | q <;> rw [hq] <;>
      dsimp only
    rw [if_neg (by simp)]
    exact player_marks_check_winner g now
  have hmono : ∀ (g : BingoGame) (u : String) (n now i : ℕ) (d : String × BingoCard),
      ((api_mark g u n now).2).players.map Prod.fst = g.players.map Prod.fst ∧
      (g.players.getD i d).2.marked ⊆
        (((api_mark g u n now).2).players.getD i d).2.marked := by
    intro g u n now i d
    rcases api_mark_snd_cases g u n now with h | h | ⟨pos, h⟩ <;> rw [h]
    · exact ⟨rfl, fun x hx => hx⟩
    · rw [(check_winner_preserves g now).1]
      exact ⟨rfl, fun x hx => hx⟩
    · rw [(check_winner_preserves _ now).1]
      unfold mark_player
      dsimp only
      constructor
      · rw [List.map_map]
        refine map_pointwise_eq _ _ _ fun p hp => ?_
        by_cases hu : (p.1 == u) = true
        · simp only [Function.comp_def, hu, if_true]
        · simp only [Function.comp_def, hu, Bool.false_eq_true, if_false]
      · refine marked_subset_getD_map _ _ (fun p => ?_) i d
        by_cases hu : (p.1 == u) = true
        · rw [if_pos hu]
          exact fun x hx => Finset.mem_insert_of_mem hx
        · rw [if_neg hu]
  have hidem : ∀ (g : BingoGame) (u : String) (n now now2 : ℕ)
      (q : String × BingoCard) (pos : ℕ × ℕ),
      n ≠ 0 → g.players.find? (fun p => p.1 == u) = some q →
      n ∈ g.called_numbers → q.2.find_position n = some pos →
      player_marks ((api_mark ((api_mark g u n now).2) u n now2).2) =
        player_marks ((api_mark g u n now).2) := by
    intro g u n now now2 q pos hn hq hc hpos
    rw [api_mark_eq g u n now q hq hn hc pos hpos]
    by_cases hp2 : pos ≠ (2, 2)
    case neg =>
      rw [if_neg hp2]
      have hplayers : ((g.check_winner now).2).players = g.players :=
        (check_winner_preserves g now).1
      have hcalled : ((g.check_winner now).2).called_numbers = g.called_numbers := by
        unfold BingoGame.called_numbers
        rw [(check_winner_preserves g now).2]
      have hq1 : ((g.check_winner now).2).players.find? (fun p => p.1 == u) = some q := by
        rw [hplayers]
        exact hq
      rw [api_mark_eq _ u n now2 q hq1 hn (by rw [hcalled]; exact hc) pos hpos,
        if_neg hp2]
      rw [player_marks_check_winner]
    case pos =>
      rw [if_pos hp2]
      have hplayers : (((mark_player g u pos).check_winner now).2).players =
          (mark_player g u pos).players := (check_winner_preserves _ now).1
      have hcalled : (((mark_player g u pos).check_winner now).2).called_numbers =
          g.called_numbers := by
        unfold BingoGame.called_numbers
        rw [(check_winner_preserves _ now).2, mark_player_called_eq]
      have hfst : ∀ p : String × BingoCard,
          ((if p.1 == u then (p.1, { p.2 with marked := insert pos p.2.marked })
            else p) : String × BingoCard).1 = p.1 := by
        intro p
        by_cases hu : (p.1 == u) = true
        · rw [if_pos hu]
        · rw [if_neg hu]
      have hq1 : (((mark_player g u pos).check_winner now).2).players.find?
          (fun p => p.1 == u) =
          some (q.1, { q.2 with marked := insert pos q.2.marked }) := by
        rw [hplayers]
        unfold mark_player
        dsimp only
        rw [find?_map_fst _ u _ hfst, hq]
        have hqu := List.find?_some hq
        rw [Option.map_some', if_pos hqu]
      have hpos1 : ({ q.2 with marked := insert pos q.2.marked } :
          BingoCard).find_position n = some pos :=
        (find_position_congr _ q.2 rfl n).trans hpos
      rw [api_mark_eq _ u n now2 _ hq1 hn (by rw [hcalled]; exact hc) pos hpos1,
        if_pos hp2]
      rw [player_marks_check_winner]
      refine mark_player_marks_eq _ u pos fun p hp hpu => ?_
      rw [hplayers] at hp
      unfold mark_player at hp
      dsimp only at hp
      rw [List.mem_map] at hp
      obtain ⟨p0, hp0, rfl⟩ := hp
      by_cases hu : (p0.1 == u) = true
      · rw [if_pos hu]
        exact Finset.mem_insert_self pos _
      · rw [if_neg hu] at hpu ⊢
        exact absurd hpu hu
  have hcenter : ∀ (g : BingoGame) (u : String) (n now : ℕ)
      (q : String × BingoCard),
      g.players.find? (fun p => p.1 == u) = some q → CardWF q.2 →
      n = (q.2.card.getD 2 []).getD 2 0 →
      player_marks ((api_mark g u n now).2) = player_marks g := by
    intro g u n now q hq hwf hn
    by_cases hz : n = 0
    · rw [hz]
      exact hzero g u now
    · by_cases hc : n ∈ g.called_numbers
      · have hpos : q.2.find_position n = some (2, 2) := by
          rw [hn]
          exact find_position_center q.2 hwf
        rw [api_mark_eq g u n now q hq hz hc (2, 2) hpos, if_neg (by simp)]
        exact player_marks_check_winner g now
      · unfold api_mark
        rw [hq]
        dsimp only
        rw [if_pos hz, if_pos hc]
  exact ⟨hmono, hidem, hzero, hcenter⟩

/-- Witness for C10 at `gAlice`: marking the called number 5 twice gives
the same marks as once, and marking the Free-center value 33 changes no
marks. -/
theorem api_mark_add_only_idempotent_witness :
    player_marks ((api_mark ((api_mark gAlice "alice" 5 0).2) "alice" 5 1).2) =
      player_marks ((api_mark gAlice "alice" 5 0).2) ∧
    player_marks ((api_mark gAlice "alice" 33 0).2) = player_marks gAlice :=
  ⟨api_mark_add_only_idempotent.2.1 gAlice "alice" 5 0 1 ("alice", cardA) (0, 4)
     (by decide) (by decide) (by decide) (by decide),
   api_mark_add_only_idempotent.2.2.2 gAlice "alice" 33 0 ("alice", cardA)
     (by decide) ⟨by decide, by decide, by decide⟩ (by decide)⟩

end Bingo
